import Mathlib

/-!
Verification of the client-side job-matching dashboard core
(`Frontend/app/page.tsx` and the theme provider component).

The TypeScript source is shallowly embedded: each relevant function of the
source is translated into an executable Lean definition operating on the
same data (strings as `String`/`List Char`, JS numbers used for relevance
scores as `ℚ`, machine-integer-free index arithmetic as `Nat`/`Int`).
Stateful React pieces (theme effect, search-filter state, upload handler)
become explicit state-passing functions.
-/

namespace RemoteReady

/-! ## Data model

Job records as received from the backend (`interface Job` in page.tsx).
The JS `relevance_score` is a float in [0,1]; it is embedded as `ℚ`. -/

structure Job where
  position : String
  company : String
  salary : String
  location : String
  tags : List String
  apply_url : String
  date_posted : String
  description : String
  relevance_score : ℚ
  matched_keywords : List String
deriving DecidableEq

/-! ## Tag filtering (`filteredJobs`, page.tsx lines 301-308) -/

/-- Substring test on character lists, the semantics of JS
`String.prototype.includes`: `hasInfix needle hay` is `true` iff `needle`
occurs contiguously inside `hay` (the empty needle always occurs). -/
def hasInfix (needle : List Char) : List Char → Bool
  | [] => needle.isEmpty
  | c :: rest => needle.isPrefixOf (c :: rest) || hasInfix needle rest

/-- Case-insensitive containment: JS `hay.toLowerCase().includes(needle.toLowerCase())`. -/
def containsCI (hay needle : String) : Bool :=
  hasInfix needle.toLower.data hay.toLower.data

/-- Predicate of the filter step (the callback passed to `.filter` in
`filteredJobs`, page.tsx lines 302-307): with an empty tag list every job
passes; otherwise some filter tag must occur case-insensitively in some
job tag or some matched keyword. -/
def jobKeep (filterTags : List String) (job : Job) : Bool :=
  if filterTags.isEmpty then true
  else filterTags.any fun tag =>
    (job.tags.any fun jobTag => containsCI jobTag tag) ||
    (job.matched_keywords.any fun keyword => containsCI keyword tag)

/-- Filter step of the pipeline (`filteredJobs`, page.tsx line 301),
applied to whatever list reaches it (in the page, the sorted list). -/
def filteredJobs (filterTags : List String) (jobs : List Job) : List Job :=
  jobs.filter (jobKeep filterTags)

/-- C1: with an empty filter-tag list the filter step is the identity
(same jobs, same order); with a non-empty tag list a job is kept if and
only if at least one filter tag is a case-insensitive substring of at
least one of the job's tags or of at least one of its matched keywords. -/
theorem filteredJobs_spec (filterTags : List String) (jobs : List Job) :
    filteredJobs filterTags jobs =
      if filterTags = [] then jobs
      else jobs.filter fun job => decide (∃ tag ∈ filterTags,
        (∃ s ∈ job.tags, containsCI s tag = true) ∨
        (∃ s ∈ job.matched_keywords, containsCI s tag = true)) := by
  unfold filteredJobs jobKeep
  cases filterTags with
  | nil => simp
  | cons t ts =>
    rw [if_neg (List.cons_ne_nil t ts)]
    refine List.filter_congr fun job _ => ?_
    rw [Bool.eq_iff_iff]
    simp [List.any_eq_true]

/-! ## Sorting (`sortedJobs`, page.tsx lines 286-299)

The page sorts a copy of the job list with `Array.prototype.sort` and a
key-dependent comparator.  ECMAScript mandates a stable comparator-driven
sort, embedded here as the stable `List.insertionSort` ordered by
"comparator value ≤ 0".  The comparator for `date_posted` calls the host
Date parser, which is outside the repository; it is therefore a parameter
`pd` (returning `none` for an unparseable date, whose `NaN` comparator
result ECMAScript treats as `0`). -/

/-- Salary sort key (page.tsx lines 293-294):
`Number.parseInt(salary.replace(/[^0-9]/g, "")) || 0`.  Stripping every
non-digit leaves a digit string whose integer value `parseInt` returns;
for a digit-free salary `parseInt("")` is `NaN` and `|| 0` yields 0,
which is also the value of the fold on the empty digit list.  `c.toNat - 48`
is the numeric value of the digit character `c`. -/
def salaryKey (s : String) : Nat :=
  (s.data.filter Char.isDigit).foldl (fun n c => 10 * n + (c.toNat - 48)) 0

/-- Comparator passed to `.sort` (page.tsx lines 286-298), as a function of
the sort key. `pd` stands for the host `new Date(x).getTime()` parser; when
either date is unparseable the JS comparator returns `NaN`, which the
ECMAScript sort treats as `0`. -/
def jsCompare (pd : String → Option Int) (sortKey : String) (a b : Job) : ℚ :=
  if sortKey = "relevance_score" then b.relevance_score - a.relevance_score
  else if sortKey = "date_posted" then
    match pd b.date_posted, pd a.date_posted with
    | some tb, some ta => (tb : ℚ) - (ta : ℚ)
    | _, _ => 0
  else if sortKey = "salary" then (salaryKey b.salary : ℚ) - (salaryKey a.salary : ℚ)
  else 0

/-- Sort step of the pipeline (`sortedJobs`, page.tsx line 286): stable
sort of the job list placing `a` before `b` when the comparator is ≤ 0. -/
def sortedJobs (pd : String → Option Int) (sortKey : String) (jobs : List Job) : List Job :=
  List.insertionSort (fun a b => jsCompare pd sortKey a b ≤ 0) jobs

/-- Date parser stub used for concrete examples whose sort key does not
consult dates. -/
def pdNone : String → Option Int := fun _ => none

/-- Job record with the given salary and defaults elsewhere, for the
concrete sort example of the spec. -/
def salaryJob (s : String) : Job :=
  { position := "", company := "", salary := s, location := "", tags := [],
    apply_url := "", date_posted := "", description := "",
    relevance_score := 0, matched_keywords := [] }

/-- Job record with the given position label and relevance score, for the
concrete stability example of the spec. -/
def relJob (name : String) (score : ℚ) : Job :=
  { position := name, company := "", salary := "", location := "", tags := [],
    apply_url := "", date_posted := "", description := "",
    relevance_score := score, matched_keywords := [] }

/-- Unfolding of the comparator at the salary key. -/
theorem jsCompare_salary (pd : String → Option Int) (a b : Job) :
    jsCompare pd "salary" a b = (salaryKey b.salary : ℚ) - (salaryKey a.salary : ℚ) := rfl

/-- C2: sorting by the salary key permutes the list into descending order
of the integer obtained by stripping every non-digit character from the
salary string; a string whose digits have been removed has key 0; the
inputs $50,000 / abc / $120,000 come out as $120,000 / $50,000 / abc. -/
theorem sortedJobs_salary_spec (pd : String → Option Int) (jobs : List Job) :
    (sortedJobs pd "salary" jobs).Perm jobs ∧
    (sortedJobs pd "salary" jobs).Pairwise
      (fun a b => salaryKey b.salary ≤ salaryKey a.salary) ∧
    (∀ s : String, salaryKey (String.mk (s.data.filter fun c => !c.isDigit)) = 0) ∧
    (sortedJobs pdNone "salary"
        [salaryJob "$50,000", salaryJob "abc", salaryJob "$120,000"]).map Job.salary
      = ["$120,000", "$50,000", "abc"] := by
  have hiff : ∀ a b : Job,
      (jsCompare pd "salary" a b ≤ 0) ↔ salaryKey b.salary ≤ salaryKey a.salary := by
    intro a b
    rw [jsCompare_salary, sub_nonpos]
    exact Nat.cast_le
  refine ⟨List.perm_insertionSort _ jobs, ?_, ?_, ?_⟩
  · haveI h1 : IsTotal Job (fun a b => jsCompare pd "salary" a b ≤ 0) := by
      constructor
      intro a b
      rw [hiff, hiff]
      exact Nat.le_total _ _
    haveI h2 : IsTrans Job (fun a b => jsCompare pd "salary" a b ≤ 0) := by
      constructor
      intro a b c hab hbc
      rw [hiff] at hab hbc ⊢
      exact le_trans hbc hab
    exact (List.sorted_insertionSort _ jobs).imp fun hab => (hiff _ _).mp hab
  · intro s
    have hnil : (s.data.filter fun c => !c.isDigit).filter Char.isDigit = [] := by
      simp [List.filter_filter]
    simp [salaryKey, hnil]
  · with_unfolding_all decide

/-- C3: the pipeline's sort is stable — for any set of jobs (cut out by a
Boolean predicate `p`) that pairwise compare equal under the active
comparator, sorting preserves their relative input order; in particular
sorting relevance scores [0.9, 0.3, 0.9, 0.1] labelled A,B,C,D by
relevance yields A,C,B,D. -/
theorem sortedJobs_stable (pd : String → Option Int) (sortKey : String)
    (jobs : List Job) (p : Job → Bool)
    (H : ∀ a ∈ jobs, ∀ b ∈ jobs, p a = true → p b = true →
      jsCompare pd sortKey a b = 0) :
    (sortedJobs pd sortKey jobs).filter p = jobs.filter p ∧
    (sortedJobs pdNone "relevance_score"
        [relJob "A" (9/10), relJob "B" (3/10), relJob "C" (9/10),
         relJob "D" (1/10)]).map Job.position = ["A", "C", "B", "D"] := by
  constructor
  · unfold sortedJobs
    have hpair : (jobs.filter p).Pairwise (fun a b => jsCompare pd sortKey a b ≤ 0) := by
      refine List.pairwise_of_forall_mem_list fun a ha b hb => ?_
      rw [List.mem_filter] at ha hb
      exact le_of_eq (H a ha.1 b hb.1 ha.2 hb.2)
    have h1 : List.Sublist (jobs.filter p)
        (List.insertionSort (fun a b => jsCompare pd sortKey a b ≤ 0) jobs) :=
      List.sublist_insertionSort hpair (List.filter_sublist jobs)
    have h2 : (jobs.filter p).filter p = jobs.filter p :=
      List.filter_eq_self.mpr fun a ha => (List.mem_filter.mp ha).2
    have h3 : List.Sublist (jobs.filter p)
        ((List.insertionSort (fun a b => jsCompare pd sortKey a b ≤ 0) jobs).filter p) :=
      h2 ▸ h1.filter p
    have h4 : ((List.insertionSort (fun a b => jsCompare pd sortKey a b ≤ 0) jobs).filter p).length
        = (jobs.filter p).length :=
      ((List.perm_insertionSort _ jobs).filter p).length_eq
    exact (h3.eq_of_length h4.symm).symm
  · with_unfolding_all decide

/-- Witness for C3 at a concrete input: the two 0.9-score jobs A and C of
the spec's stability example keep their relative input order. -/
theorem sortedJobs_stable_witness :
    (sortedJobs pdNone "relevance_score"
        [relJob "A" (9/10), relJob "B" (3/10), relJob "C" (9/10),
         relJob "D" (1/10)]).filter (fun j => decide (j.relevance_score = 9/10)) =
      [relJob "A" (9/10), relJob "B" (3/10), relJob "C" (9/10),
       relJob "D" (1/10)].filter (fun j => decide (j.relevance_score = 9/10)) :=
  (sortedJobs_stable pdNone "relevance_score" _ _ (by with_unfolding_all decide)).1

/-! ## Description sanitizer (`stripHtmlTags`, page.tsx lines 73-105)

The sanitizer works on `List Char`.  The two scanning replacements
(`html.replace(/<[^>]*>/g, "")` and literal global entity replacement)
advance through the input by more than one character at a time, so they
are written with an explicit fuel argument equal to the input length —
every step consumes at least one input character, hence the fuel never
runs out and the zero-fuel branch is unreachable on the wrapper calls. -/

/-- Scanner for `html.replace(/<[^>]*>/g, "")`: on `<`, if a later `>`
exists the whole `<...>` span is dropped (the regex `[^>]*` necessarily
stops at the first `>`); a `<` with no later `>` never matches and stays. -/
def stripTagsAux : List Char → Nat → List Char
  | [], _ => []
  | c :: cs, 0 => c :: cs
  | c :: cs, fuel + 1 =>
    if c = '<' then
      match cs.dropWhile (fun x => x ≠ '>') with
      | [] => c :: stripTagsAux cs fuel
      | _ :: rest => stripTagsAux rest fuel
    else c :: stripTagsAux cs fuel

/-- Tag-stripping pass (page.tsx line 77). -/
def stripTags (l : List Char) : List Char := stripTagsAux l l.length

/-- Scanner for one global literal replacement
`text.replace(new RegExp(entity, "g"), rep)`: leftmost non-overlapping
occurrences of `pat` are replaced by `rep`, and the replacement text is
not rescanned.  Every entity pattern used below is non-empty. -/
def replaceAllAux (pat rep : List Char) : List Char → Nat → List Char
  | [], _ => []
  | c :: cs, 0 => c :: cs
  | c :: cs, fuel + 1 =>
    if pat.isPrefixOf (c :: cs) then
      rep ++ replaceAllAux pat rep (List.drop (pat.length - 1) cs) fuel
    else c :: replaceAllAux pat rep cs fuel

/-- Global literal replacement of `pat` by `rep`. -/
def replaceAllL (pat rep l : List Char) : List Char := replaceAllAux pat rep l l.length

/-- Entity table of page.tsx lines 80-94, in object-key insertion order,
which is the order `Object.keys(...).forEach` applies the replacements. -/
def htmlEntities : List (String × String) :=
  [("&amp;", "&"), ("&lt;", "<"), ("&gt;", ">"), ("&quot;", "\""), ("&#39;", "'"),
   ("&nbsp;", " "), ("&hellip;", "..."), ("&mdash;", "—"), ("&ndash;", "–"),
   ("&rsquo;", "'"), ("&lsquo;", "'"), ("&rdquo;", "\""), ("&ldquo;", "\"")]

/-- Sequential entity decoding pass (page.tsx lines 97-99). -/
def decodeEntities (l : List Char) : List Char :=
  htmlEntities.foldl (fun text e => replaceAllL e.1.data e.2.data text) l

/-- Scanner for `text.replace(/\s+/g, " ")`: each maximal whitespace run
becomes a single space.  The flag records whether the previous character
was part of a whitespace run.  `Char.isWhitespace` embeds the JS `\s`
class. -/
def collapseWsAux : Bool → List Char → List Char
  | _, [] => []
  | prevWs, c :: cs =>
    if c.isWhitespace then
      if prevWs then collapseWsAux true cs else ' ' :: collapseWsAux true cs
    else c :: collapseWsAux false cs

/-- Whitespace-collapsing pass (page.tsx line 102). -/
def collapseWs (l : List Char) : List Char := collapseWsAux false l

/-- Embedding of JS `String.prototype.trim`: drop whitespace from both
ends. -/
def trimWs (l : List Char) : List Char :=
  ((l.dropWhile Char.isWhitespace).reverse.dropWhile Char.isWhitespace).reverse

/-- Description sanitizer (`stripHtmlTags`, page.tsx lines 73-105):
`if (!html) return ""` guard, tag stripping, entity decoding, whitespace
collapsing, trim. -/
def stripHtmlTags (html : String) : String :=
  if html = "" then ""
  else String.mk (trimWs (collapseWs (decodeEntities (stripTags html.data))))

/-- Head of a collapsed run starting inside whitespace is never
whitespace. -/
theorem collapseWsAux_head (l : List Char) :
    ∀ y ∈ (collapseWsAux true l).head?, y.isWhitespace = false := by
  induction l with
  | nil => intro y hy; simp [collapseWsAux] at hy
  | cons c cs ih =>
    intro y hy
    by_cases hc : c.isWhitespace
    · rw [show collapseWsAux true (c :: cs) = collapseWsAux true cs by
        simp [collapseWsAux, hc]] at hy
      exact ih y hy
    · rw [show collapseWsAux true (c :: cs) = c :: collapseWsAux false cs by
        simp [collapseWsAux, hc]] at hy
      simp only [List.head?_cons, Option.mem_def, Option.some.injEq] at hy
      subst hy
      exact Bool.eq_false_iff.mpr hc

/-- Output of the whitespace-collapsing scanner never has two adjacent
whitespace characters. -/
theorem collapseWsAux_chain (l : List Char) :
    ∀ fl : Bool, (collapseWsAux fl l).Chain'
      (fun a b => ¬(a.isWhitespace = true ∧ b.isWhitespace = true)) := by
  induction l with
  | nil => intro fl; simp [collapseWsAux]
  | cons c cs ih =>
    intro fl
    by_cases hc : c.isWhitespace
    · cases fl with
      | true =>
        rw [show collapseWsAux true (c :: cs) = collapseWsAux true cs by
          simp [collapseWsAux, hc]]
        exact ih true
      | false =>
        rw [show collapseWsAux false (c :: cs) = ' ' :: collapseWsAux true cs by
          simp [collapseWsAux, hc]]
        refine List.chain'_cons'.mpr ⟨?_, ih true⟩
        intro y hy h2
        rw [collapseWsAux_head cs y hy] at h2
        exact Bool.false_ne_true h2.2
    · rw [show collapseWsAux fl (c :: cs) = c :: collapseWsAux false cs by
        simp [collapseWsAux, hc]]
      refine List.chain'_cons'.mpr ⟨?_, ih false⟩
      intro y hy h2
      exact hc (h2.1 ▸ rfl)

/-- Trimming yields a contiguous piece of the input. -/
theorem trimWs_contig (l : List Char) : List.IsInfix (trimWs l) l := by
  have hd : List.IsSuffix (l.dropWhile Char.isWhitespace) l := List.dropWhile_suffix _
  have he : List.IsSuffix
      ((l.dropWhile Char.isWhitespace).reverse.dropWhile Char.isWhitespace)
      (l.dropWhile Char.isWhitespace).reverse := List.dropWhile_suffix _
  have hp : List.IsPrefix (trimWs l) (l.dropWhile Char.isWhitespace) := by
    have := List.reverse_prefix.mpr he
    rwa [List.reverse_reverse] at this
  exact hp.isInfix.trans hd.isInfix

/-- Trimmed output never starts with whitespace. -/
theorem trimWs_head (l : List Char) :
    ∀ y ∈ (trimWs l).head?, y.isWhitespace = false := by
  intro y hy
  have hp : List.IsPrefix (trimWs l) (l.dropWhile Char.isWhitespace) := by
    have := List.reverse_prefix.mpr
      (List.dropWhile_suffix (l := (l.dropWhile Char.isWhitespace).reverse)
        Char.isWhitespace)
    rwa [List.reverse_reverse] at this
  obtain ⟨t, ht⟩ := hp
  cases htr : trimWs l with
  | nil => rw [htr] at hy; simp at hy
  | cons a rest =>
    rw [htr] at hy
    simp only [List.head?_cons, Option.mem_def, Option.some.injEq] at hy
    have hhead := List.head?_dropWhile_not Char.isWhitespace l
    rw [← ht, htr] at hhead
    simpa [hy] using hhead

/-- Trimmed output never ends with whitespace. -/
theorem trimWs_getLast (l : List Char) :
    ∀ y ∈ (trimWs l).getLast?, y.isWhitespace = false := by
  intro y hy
  unfold trimWs at hy
  rw [List.getLast?_reverse] at hy
  have hhead := List.head?_dropWhile_not Char.isWhitespace
    (l.dropWhile Char.isWhitespace).reverse
  rw [Option.mem_def] at hy
  rw [hy] at hhead
  exact hhead

set_option maxHeartbeats 2000000 in
/-- C4: the sanitizer maps the spec's example markup to its plain-text
rendering, decodes the whole fixed entity table, leaves unknown entities
verbatim, and for every input the result carries no leading whitespace,
no trailing whitespace, and no two adjacent whitespace characters
(runs collapsed to a single space). -/
theorem stripHtmlTags_spec :
    stripHtmlTags "<b>A &amp; B</b>&nbsp;&mdash; team" = "A & B — team" ∧
    stripHtmlTags "&amp;x&lt;x&gt;x&quot;x&#39;x&nbsp;x&hellip;x&mdash;x&ndash;x&rsquo;x&lsquo;x&rdquo;x&ldquo;" =
      "&x<x>x\"x'x x...x—x–x'x'x\"x\"" ∧
    stripHtmlTags "a &zzz; b" = "a &zzz; b" ∧
    (∀ s : String, ((stripHtmlTags s).data.head?.all fun c => !c.isWhitespace) = true) ∧
    (∀ s : String, ((stripHtmlTags s).data.getLast?.all fun c => !c.isWhitespace) = true) ∧
    (∀ s : String, (stripHtmlTags s).data.Chain'
      fun a b => ¬(a.isWhitespace = true ∧ b.isWhitespace = true)) := by
  refine ⟨by decide, by decide, by decide, ?_, ?_, ?_⟩
  · intro s
    by_cases hs : s = ""
    · simp [stripHtmlTags, hs]
    · rw [show (stripHtmlTags s).data
          = trimWs (collapseWs (decodeEntities (stripTags s.data))) by
        simp [stripHtmlTags, hs]]
      cases hh : (trimWs (collapseWs (decodeEntities (stripTags s.data)))).head? with
      | none => simp [hh]
      | some y =>
        have := trimWs_head (collapseWs (decodeEntities (stripTags s.data))) y
          (by rw [hh]; rfl)
        simp [hh, this]
  · intro s
    by_cases hs : s = ""
    · simp [stripHtmlTags, hs]
    · rw [show (stripHtmlTags s).data
          = trimWs (collapseWs (decodeEntities (stripTags s.data))) by
        simp [stripHtmlTags, hs]]
      cases hh : (trimWs (collapseWs (decodeEntities (stripTags s.data)))).getLast? with
      | none => simp [hh]
      | some y =>
        have := trimWs_getLast (collapseWs (decodeEntities (stripTags s.data))) y
          (by rw [hh]; rfl)
        simp [hh, this]
  · intro s
    by_cases hs : s = ""
    · simp [stripHtmlTags, hs]
    · rw [show (stripHtmlTags s).data
          = trimWs (collapseWs (decodeEntities (stripTags s.data))) by
        simp [stripHtmlTags, hs]]
      exact List.Chain'.infix
        (collapseWsAux_chain (decodeEntities (stripTags s.data)) false)
        (trimWs_contig _)

/-! ## CSV export (`handleExport`, page.tsx lines 320-343)

The handler returns immediately when the job list is empty; otherwise it
assembles the delimited text and offers it as a download.  The embedding
returns `none` for the no-op and `some document` otherwise. -/

/-- Embedding of JS `Array.prototype.join`. -/
def joinSep (sep : String) : List String → String
  | [] => ""
  | [x] => x
  | x :: y :: ys => x ++ sep ++ joinSep sep (y :: ys)

/-- Header row of the export (page.tsx line 324). -/
def csvHeaders : List String :=
  ["Position", "Company", "Salary", "Location", "Date Posted", "Relevance",
   "Tags", "Matched Keywords"]

/-- Rendering of the relevance score (page.tsx line 331):
`Math.round(job.relevance_score * 100) + '%'`; `Math.round` rounds half
toward positive infinity, which is Mathlib's `round`. -/
def percentStr (q : ℚ) : String := toString (round (q * 100)) ++ "%"

/-- Field list of one export row (page.tsx lines 325-334). -/
def jobRow (job : Job) : List String :=
  [job.position, job.company, job.salary, job.location, job.date_posted,
   percentStr job.relevance_score,
   joinSep "; " job.tags, joinSep "; " job.matched_keywords]

/-- Quoting of one field (page.tsx line 335): `'"' + (v || '') + '"'`;
on strings `v || ''` is the identity, since the only falsy string is
already `''`. -/
def quoteField (v : String) : String := "\"" ++ v ++ "\""

/-- Assembled document (page.tsx line 335): quoted fields joined by
commas, rows joined by newlines, headers first, one row per job of the
full (unfiltered, unsorted) list. -/
def csvContent (jobs : List Job) : String :=
  joinSep "\n" ((csvHeaders :: jobs.map jobRow).map fun row =>
    joinSep "," (row.map quoteField))

/-- Export handler (page.tsx lines 320-343): no document when the job
list is empty, otherwise the assembled document (offered as
`jobs.csv`). -/
def handleExport (jobs : List Job) : Option String :=
  if jobs = [] then none else some (csvContent jobs)

/-- Occurrences of a character in a joined string: one per occurrence
inside an element plus one per separator occurrence per junction. -/
theorem count_joinSep (c : Char) (sep : String) (rows : List String) :
    ((joinSep sep rows).data.count c)
      = ((rows.map fun r => r.data.count c).sum
          + (sep.data.count c) * (rows.length - 1)) := by
  induction rows with
  | nil => simp [joinSep]
  | cons x xs ih =>
    cases xs with
    | nil => simp [joinSep]
    | cons y ys =>
      rw [show joinSep sep (x :: y :: ys) = x ++ sep ++ joinSep sep (y :: ys) from rfl]
      simp only [String.data_append, List.count_append, ih, List.map_cons,
        List.sum_cons, List.length_cons, Nat.add_sub_cancel]
      ring

/-- Quoting does not change the newline count of a field. -/
theorem count_quoteField (v : String) :
    (quoteField v).data.count '\n' = v.data.count '\n' := by
  simp [quoteField, String.data_append]

/-- Newline count of a string; a document with `n` newlines has `n + 1`
lines. -/
def nlCount (s : String) : Nat := s.data.count '\n'

/-- Benign job whose export row contains no newline. -/
def okJob : Job :=
  { position := "Dev", company := "ACME", salary := "$50,000", location := "Remote",
    tags := ["Python", "Remote"], apply_url := "u", date_posted := "2024-01-01",
    description := "", relevance_score := 85/100, matched_keywords := ["python"] }

/-- Job whose position field contains a newline, which the export does
not escape. -/
def badJob : Job :=
  { position := "a\nb", company := "c", salary := "", location := "",
    tags := [], apply_url := "", date_posted := "", description := "",
    relevance_score := 0, matched_keywords := [] }

/-- Counterexample to C5 as stated: for the one-job list `[badJob]` the
claim demands exactly 1 + 1 lines, but the produced document has an
extra newline carried verbatim inside the position field, hence three
lines. -/
theorem handleExport_counterexample :
    handleExport [badJob] = some (csvContent [badJob]) ∧
    nlCount (csvContent [badJob]) + 1 ≠ 1 + 1 := by
  constructor
  · rfl
  · with_unfolding_all decide

/-- C5 (amended): exporting an empty job list produces no document;
exporting a non-empty list produces the delimited document built from
the full unfiltered list (header row plus one quoted row per job joined
by newlines); and whenever no rendered field contains a newline
character the document has exactly `jobs.length + 1` lines. -/
theorem handleExport_amended (jobs : List Job) :
    (jobs = [] → handleExport jobs = none) ∧
    (jobs ≠ [] → handleExport jobs = some (csvContent jobs)) ∧
    (((csvHeaders :: jobs.map jobRow).all fun row =>
        row.all fun v => v.data.count '\n' = 0) = true →
      nlCount (csvContent jobs) + 1 = jobs.length + 1) := by
  refine ⟨fun h => by simp [handleExport, h], fun h => by simp [handleExport, h],
    fun hfree => ?_⟩
  unfold csvContent nlCount
  rw [count_joinSep]
  have hline : ∀ row ∈ csvHeaders :: jobs.map jobRow,
      (joinSep "," (row.map quoteField)).data.count '\n' = 0 := by
    intro row hrow
    rw [count_joinSep]
    have hcomma : ((",".data).count '\n') = 0 := by decide
    rw [hcomma, Nat.zero_mul, Nat.add_zero]
    apply List.sum_eq_zero
    intro n hn
    rw [List.mem_map] at hn
    obtain ⟨q, hq, hqn⟩ := hn
    rw [List.mem_map] at hq
    obtain ⟨v, hv, hvq⟩ := hq
    subst hvq
    subst hqn
    rw [count_quoteField]
    have h1 := (List.all_eq_true.mp hfree) row hrow
    have h2 := (List.all_eq_true.mp h1) v hv
    simpa using h2
  have hsum : (((csvHeaders :: jobs.map jobRow).map fun row =>
      joinSep "," (row.map quoteField)).map fun r => r.data.count '\n').sum = 0 := by
    apply List.sum_eq_zero
    intro x hx
    rw [List.mem_map] at hx
    obtain ⟨r, hr, hxr⟩ := hx
    rw [List.mem_map] at hr
    obtain ⟨row, hrow, hrr⟩ := hr
    subst hrr
    subst hxr
    exact hline row hrow
  rw [hsum]
  have hnl : (("\n".data).count '\n') = 1 := by decide
  rw [hnl, Nat.one_mul]
  simp

/-- Witness for C5 (amended) at a concrete one-job list: a document is
produced and has exactly two lines. -/
theorem handleExport_amended_witness :
    handleExport [okJob] = some (csvContent [okJob]) ∧
    nlCount (csvContent [okJob]) + 1 = 1 + 1 :=
  ⟨(handleExport_amended [okJob]).2.1 (List.cons_ne_nil okJob []),
   by
    have := (handleExport_amended [okJob]).2.2 (by with_unfolding_all decide)
    simpa using this⟩

/-! ## Theme provider (theme-provider component, part_000)

The provider state: the stored tri-state preference, the resolved binary
value, the class list of the document root, and the persisted
`localStorage["theme"]` entry.  The effect of part_000 lines 35-57 runs
after every preference change. -/

/-- Display preference: `type Theme = "dark" | "light" | "system"`. -/
inductive Theme
  | dark
  | light
  | system
deriving DecidableEq

/-- String stored for a preference by `localStorage.setItem("theme", theme)`. -/
def themeToString : Theme → String
  | .dark => "dark"
  | .light => "light"
  | .system => "system"

/-- Resolved binary value: the provider's `resolvedTheme` has TS type
`"dark" | "light"`. -/
inductive ResolvedTheme
  | dark
  | light
deriving DecidableEq

/-- Class name applied to the document root for a resolved value. -/
def resolvedToString : ResolvedTheme → String
  | .dark => "dark"
  | .light => "light"

/-- Provider state: current preference, resolved value, root element
class list, persisted raw preference string. -/
structure ThemeState where
  theme : Theme
  resolvedTheme : ResolvedTheme
  rootClasses : List String
  storedTheme : Option String
deriving DecidableEq

/-- Initial provider state (part_000 lines 17, 24-25): default preference
`system`, resolved state initialised to `light`, nothing persisted yet. -/
def initialThemeState : ThemeState :=
  { theme := .system, resolvedTheme := .light, rootClasses := [], storedTheme := none }

/-- Effect body (part_000 lines 35-57): remove both theme classes from
the root, resolve `system` against the ambient dark-scheme signal and
any other preference to itself, store the resolved value, add its class
(the default `attribute` is `"class"`), and persist the raw preference. -/
def applyThemeEffect (ambientDark : Bool) (s : ThemeState) : ThemeState :=
  let cleared := s.rootClasses.filter fun cl => cl ≠ "light" ∧ cl ≠ "dark"
  let effectiveTheme : ResolvedTheme :=
    match s.theme with
    | .system => if ambientDark then .dark else .light
    | .dark => .dark
    | .light => .light
  { theme := s.theme,
    resolvedTheme := effectiveTheme,
    rootClasses := cleared ++ [resolvedToString effectiveTheme],
    storedTheme := some (themeToString s.theme) }

/-- Preference change: `setTheme` followed by the effect, which re-runs
on every change of `theme`. -/
def setThemeAndApply (t : Theme) (ambientDark : Bool) (s : ThemeState) : ThemeState :=
  applyThemeEffect ambientDark { s with theme := t }

/-- C6: after a change to preference P under ambient signal A, the
resolved value equals A when P is `system` and equals P otherwise, is
always one of dark/light, and the persisted entry is the raw preference
P, not the resolved value. -/
theorem theme_resolution_spec (P : Theme) (A : Bool) (s : ThemeState) :
    ((setThemeAndApply P A s).resolvedTheme = .dark ∨
      (setThemeAndApply P A s).resolvedTheme = .light) ∧
    (P = .system → (setThemeAndApply P A s).resolvedTheme
        = (if A then .dark else .light)) ∧
    (P = .dark → (setThemeAndApply P A s).resolvedTheme = .dark) ∧
    (P = .light → (setThemeAndApply P A s).resolvedTheme = .light) ∧
    (setThemeAndApply P A s).storedTheme = some (themeToString P) := by
  cases P <;> cases A <;>
    simp [setThemeAndApply, applyThemeEffect, themeToString]

/-- Witness for C6 at the concrete input P = system, A = dark ambient:
the resolved value is dark while the persisted entry stays "system". -/
theorem theme_resolution_witness :
    (setThemeAndApply .system true initialThemeState).resolvedTheme = .dark ∧
    (setThemeAndApply .system true initialThemeState).storedTheme = some "system" :=
  ⟨by simpa using (theme_resolution_spec .system true initialThemeState).2.1 rfl,
   (theme_resolution_spec .system true initialThemeState).2.2.2.2⟩

/-! ## Filter builder (`searchFilters` state, `addToSearchFilter`,
`removeFromSearchFilter`, page.tsx lines 123-129 and 265-284)

The four criteria sequences live in the `searchFilters` React state and
are mutated only by the add/remove handlers, starting from the empty
initial state.  Reachable states are the fold of any operation sequence
over the initial state. -/

/-- Criteria fields of `SearchFilters` holding string sequences; the
remaining field `limit` is a number, for which the handler's
`Array.isArray` guard fails, so `add` never touches it. -/
inductive FilterField
  | skills
  | technologies
  | job_titles
  | industries
deriving DecidableEq

/-- Search filter state (`interface SearchFilters`, page.tsx lines 61-67). -/
structure SearchFilters where
  skills : List String
  technologies : List String
  job_titles : List String
  industries : List String
  limit : Nat
deriving DecidableEq

/-- Reading one criteria sequence. -/
def getCriteria : FilterField → SearchFilters → List String
  | .skills, s => s.skills
  | .technologies, s => s.technologies
  | .job_titles, s => s.job_titles
  | .industries, s => s.industries

/-- Writing one criteria sequence. -/
def setCriteria : FilterField → List String → SearchFilters → SearchFilters
  | .skills, l, s => { s with skills := l }
  | .technologies, l, s => { s with technologies := l }
  | .job_titles, l, s => { s with job_titles := l }
  | .industries, l, s => { s with industries := l }

/-- Embedding of JS `String.prototype.trim` on `String`. -/
def jsTrim (s : String) : String := String.mk (trimWs s.data)

/-- Initial filter state (page.tsx lines 123-129). -/
def initialSearchFilters : SearchFilters :=
  { skills := [], technologies := [], job_titles := [], industries := [], limit := 20 }

/-- Add handler (page.tsx lines 265-277): appends the trimmed value
unless it is empty after trimming or already present (exact,
case-sensitive `includes`). -/
def addToSearchFilter (fld : FilterField) (value : String) (s : SearchFilters) :
    SearchFilters :=
  if jsTrim value ≠ "" ∧ jsTrim value ∉ getCriteria fld s then
    setCriteria fld (getCriteria fld s ++ [jsTrim value]) s
  else s

/-- Remove handler (page.tsx lines 279-284): keeps the elements that are
not strictly equal to the value. -/
def removeFromSearchFilter (fld : FilterField) (value : String) (s : SearchFilters) :
    SearchFilters :=
  setCriteria fld ((getCriteria fld s).filter fun item => item ≠ value) s

/-- One user interaction with the filter builder. -/
inductive FilterOp
  | add (fld : FilterField) (value : String)
  | remove (fld : FilterField) (value : String)

/-- Applying one interaction to the state. -/
def applyFilterOp (s : SearchFilters) : FilterOp → SearchFilters
  | .add fld v => addToSearchFilter fld v s
  | .remove fld v => removeFromSearchFilter fld v s

/-- State reached by a sequence of interactions from the initial state. -/
def runFilterOps (ops : List FilterOp) : SearchFilters :=
  ops.foldl applyFilterOp initialSearchFilters

/-- Invariant of one criteria sequence: no duplicates, and every element
is non-empty and equal to its own trim. -/
def goodCriteria (l : List String) : Prop :=
  l.Nodup ∧ ∀ x ∈ l, x ≠ "" ∧ jsTrim x = x

/-- Lists whose head satisfies no `p` are unchanged by `dropWhile p`. -/
theorem dropWhile_eq_self_of_head (p : Char → Bool) (l : List Char)
    (h : ∀ y ∈ l.head?, p y = false) : l.dropWhile p = l := by
  cases l with
  | nil => rfl
  | cons a t =>
    have ha := h a rfl
    simp [List.dropWhile_cons, ha]

/-- Trimming is idempotent. -/
theorem trimWs_idem (l : List Char) : trimWs (trimWs l) = trimWs l := by
  have h1 : (trimWs l).dropWhile Char.isWhitespace = trimWs l :=
    dropWhile_eq_self_of_head _ _ (trimWs_head l)
  have h2 : (trimWs l).reverse.dropWhile Char.isWhitespace = (trimWs l).reverse := by
    refine dropWhile_eq_self_of_head _ _ ?_
    intro y hy
    rw [List.head?_eq_getLast?_reverse, List.reverse_reverse] at hy
    exact trimWs_getLast l y hy
  show (((trimWs l).dropWhile Char.isWhitespace).reverse.dropWhile
      Char.isWhitespace).reverse = trimWs l
  rw [h1, h2, List.reverse_reverse]

/-- JS trim is idempotent. -/
theorem jsTrim_idem (s : String) : jsTrim (jsTrim s) = jsTrim s :=
  congrArg String.mk (trimWs_idem s.data)

/-- Reading after writing the same field yields the written list; other
fields are untouched. -/
theorem getCriteria_setCriteria (fld fld2 : FilterField) (l : List String)
    (s : SearchFilters) :
    getCriteria fld2 (setCriteria fld l s)
      = if fld2 = fld then l else getCriteria fld2 s := by
  cases fld <;> cases fld2 <;> simp [getCriteria, setCriteria]

/-- Writing back what was read leaves the state unchanged. -/
theorem setCriteria_getCriteria (fld : FilterField) (s : SearchFilters) :
    setCriteria fld (getCriteria fld s) s = s := by
  cases fld <;> rfl

/-- Invariant preservation for a single interaction. -/
theorem goodCriteria_applyFilterOp (s : SearchFilters) (op : FilterOp)
    (h : ∀ fld, goodCriteria (getCriteria fld s)) :
    ∀ fld, goodCriteria (getCriteria fld (applyFilterOp s op)) := by
  intro fld
  cases op with
  | add fld2 v =>
    show goodCriteria (getCriteria fld (addToSearchFilter fld2 v s))
    unfold addToSearchFilter
    by_cases hg : jsTrim v ≠ "" ∧ jsTrim v ∉ getCriteria fld2 s
    · rw [if_pos hg, getCriteria_setCriteria]
      by_cases hf : fld = fld2
      · rw [if_pos hf]
        obtain ⟨hd, hm⟩ := h fld2
        refine ⟨?_, ?_⟩
        · rw [List.nodup_append]
          exact ⟨hd, List.nodup_singleton _,
            fun a ha hb => hg.2 ((List.mem_singleton.mp hb) ▸ ha)⟩
        · intro x hx
          rcases List.mem_append.mp hx with hx1 | hx1
          · exact hm x hx1
          · rw [List.mem_singleton.mp hx1]
            exact ⟨hg.1, jsTrim_idem v⟩
      · rw [if_neg hf]
        exact h fld
    · rw [if_neg hg]
      exact h fld
  | remove fld2 v =>
    show goodCriteria (getCriteria fld (removeFromSearchFilter fld2 v s))
    unfold removeFromSearchFilter
    rw [getCriteria_setCriteria]
    by_cases hf : fld = fld2
    · rw [if_pos hf]
      obtain ⟨hd, hm⟩ := h fld2
      exact ⟨hd.filter _, fun x hx => hm x (List.mem_filter.mp hx).1⟩
    · rw [if_neg hf]
      exact h fld

/-- Invariant for every reachable filter state. -/
theorem runFilterOps_invariant (ops : List FilterOp) :
    ∀ fld, goodCriteria (getCriteria fld (runFilterOps ops)) := by
  have key : ∀ (ops2 : List FilterOp) (s : SearchFilters),
      (∀ fld, goodCriteria (getCriteria fld s)) →
      ∀ fld, goodCriteria (getCriteria fld (ops2.foldl applyFilterOp s)) := by
    intro ops2
    induction ops2 with
    | nil => intro s hs; exact hs
    | cons op rest ih =>
      intro s hs
      exact ih (applyFilterOp s op) (goodCriteria_applyFilterOp s op hs)
  refine key ops initialSearchFilters ?_
  intro fld
  cases fld <;> exact ⟨List.nodup_nil, by intro x hx; cases hx⟩

/-- C10: starting from the empty initial state, every sequence of
add/remove interactions leaves each criteria sequence duplicate-free,
with every element non-empty and equal to its own trim. -/
theorem searchFilters_invariant (ops : List FilterOp) (fld : FilterField) :
    (getCriteria fld (runFilterOps ops)).Nodup ∧
    ∀ x ∈ getCriteria fld (runFilterOps ops), x ≠ "" ∧ jsTrim x = x :=
  runFilterOps_invariant ops fld

/-- Operation sequence exercising trim, duplicate rejection, empty-value
rejection and removal. -/
def demoOps : List FilterOp :=
  [.add .skills " python ", .add .skills "python", .add .skills "  ",
   .remove .skills "java", .add .skills "go"]

/-- Witness for C10 at a concrete interaction sequence. -/
theorem searchFilters_invariant_witness :
    (getCriteria .skills (runFilterOps demoOps)).Nodup ∧
    ("python" ≠ "" ∧ jsTrim "python" = "python") :=
  ⟨(searchFilters_invariant demoOps .skills).1,
   (searchFilters_invariant demoOps .skills).2 "python" (by decide)⟩

/-- C7: on every reachable filter state, the remove handler maps the
addressed sequence to the first-match erasure of the value (equivalent
to dropping all matches, as reachable sequences are duplicate-free,
leaving the other elements in order), and is a no-op on the whole state
when the value does not occur. -/
theorem removeFromSearchFilter_spec (ops : List FilterOp) (fld : FilterField)
    (v : String) :
    getCriteria fld (removeFromSearchFilter fld v (runFilterOps ops))
      = (getCriteria fld (runFilterOps ops)).erase v ∧
    (v ∉ getCriteria fld (runFilterOps ops) →
      removeFromSearchFilter fld v (runFilterOps ops) = runFilterOps ops) := by
  have hd : (getCriteria fld (runFilterOps ops)).Nodup :=
    (runFilterOps_invariant ops fld).1
  constructor
  · unfold removeFromSearchFilter
    rw [getCriteria_setCriteria, if_pos rfl, List.Nodup.erase_eq_filter hd]
    refine List.filter_congr fun a _ => ?_
    rw [Bool.eq_iff_iff]
    simp [bne_iff_ne]
  · intro hv
    unfold removeFromSearchFilter
    have hfil : (getCriteria fld (runFilterOps ops)).filter (fun item => item ≠ v)
        = getCriteria fld (runFilterOps ops) := by
      apply List.filter_eq_self.mpr
      intro a ha
      simp only [decide_eq_true_eq]
      intro he
      exact hv (he ▸ ha)
    rw [hfil, setCriteria_getCriteria]

/-- Witness for C7 at a concrete reachable state: removing the absent
value "java" is a no-op and agrees with erasure. -/
theorem removeFromSearchFilter_spec_witness :
    getCriteria .skills (removeFromSearchFilter .skills "java" (runFilterOps demoOps))
      = (getCriteria .skills (runFilterOps demoOps)).erase "java" ∧
    removeFromSearchFilter .skills "java" (runFilterOps demoOps) = runFilterOps demoOps :=
  ⟨(removeFromSearchFilter_spec demoOps .skills "java").1,
   (removeFromSearchFilter_spec demoOps .skills "java").2 (by decide)⟩

/-! ## Upload progress and timer (`handleFileUpload`, page.tsx lines 154-206)

After validation the handler sets progress to 0, starts a 200 ms
interval running `setUploadProgress(prev => Math.min(prev + 10, 90))`,
and awaits the fetch.  On a resolved response (any HTTP status) lines
189-190 clear the interval and snap progress to 100; on a rejected fetch
the `await` throws before line 189, so the interval is never cleared.
The `finally` clears the loading flag and schedules a reset of progress
to 0 after 1000 ms; it does not touch the interval.  The model takes the
number `n` of ticks elapsed while the request was outstanding and the
request outcome. -/

/-- One tick of the simulated progress interval (page.tsx line 181). -/
def progressStep (p : Nat) : Nat := min (p + 10) 90

/-- Progress value after `n` interval ticks, starting from the
`setUploadProgress(0)` of line 172. -/
def progressAfterTicks : Nat → Nat
  | 0 => 0
  | n + 1 => progressStep (progressAfterTicks n)

/-- Outcome of the `fetch`: resolved with ok status, resolved with error
status, or rejected (network failure). -/
inductive FetchOutcome
  | resolvedOk
  | resolvedErr
  | rejected
deriving DecidableEq

/-- Observable pieces of the handler state in this model. -/
structure UploadState where
  isLoading : Bool
  uploadProgress : Nat
  timerRunning : Bool
deriving DecidableEq

/-- State while the request is outstanding after `n` ticks. -/
def uploadPending (n : Nat) : UploadState :=
  { isLoading := true, uploadProgress := progressAfterTicks n, timerRunning := true }

/-- State immediately after the fetch settles: a resolved response
passes through lines 189-190 (interval cleared, progress snapped to
100) whatever its status; a rejected fetch jumps from the `await` to
`catch`, skipping both. -/
def uploadAtResponse (o : FetchOutcome) (n : Nat) : UploadState :=
  match o with
  | .resolvedOk => { isLoading := true, uploadProgress := 100, timerRunning := false }
  | .resolvedErr => { isLoading := true, uploadProgress := 100, timerRunning := false }
  | .rejected =>
    { isLoading := true, uploadProgress := progressAfterTicks n, timerRunning := true }

/-- State after the `finally` block and its delayed reset have run: the
loading flag is cleared and the 1000 ms timeout has written progress 0.
The interval state is untouched here — on the rejected path it is still
running and will keep rewriting the progress value afterwards. -/
def uploadFinal (o : FetchOutcome) (n : Nat) : UploadState :=
  { uploadAtResponse o n with isLoading := false, uploadProgress := 0 }

/-- Counterexample to C8 as stated: the claim says the indicator never
reaches the value 90% while the request is outstanding, but after nine
ticks (1.8 s) the value is exactly 90. -/
theorem uploadProgress_counterexample :
    progressAfterTicks 9 = 90 ∧ (uploadPending 9).uploadProgress = 90 := by decide

/-- C8 (amended): while the request is outstanding the indicator climbs
in steps of at most 10 and never exceeds 90% (it reaches exactly 90%
after enough ticks and stays there); on receipt of a resolved response
it is snapped to 100% whatever the HTTP status, and after the fixed
delay it is reset to 0. -/
theorem uploadProgress_amended :
    (∀ n, progressAfterTicks n ≤ 90) ∧
    (∀ n, progressAfterTicks n ≤ progressAfterTicks (n + 1)) ∧
    (∀ n, (uploadAtResponse .resolvedOk n).uploadProgress = 100 ∧
      (uploadAtResponse .resolvedErr n).uploadProgress = 100) ∧
    (∀ n, (uploadFinal .resolvedOk n).uploadProgress = 0 ∧
      (uploadFinal .resolvedErr n).uploadProgress = 0) := by
  have hle : ∀ n, progressAfterTicks n ≤ 90 := by
    intro n
    induction n with
    | zero => exact Nat.zero_le 90
    | succ k ih => exact Nat.min_le_right _ _
  refine ⟨hle, ?_, fun n => ⟨rfl, rfl⟩, fun n => ⟨rfl, rfl⟩⟩
  intro n
  exact Nat.le_min.mpr ⟨Nat.le_add_right _ _, hle n⟩

/-- C9 evidence: on a rejected fetch the interval survives the whole
handler (the clearing statement sits after the `await`, before the
`catch`), while both resolved outcomes clear it; the claim that the
timer never remains running is violated at the rejected outcome. -/
theorem uploadTimer_leak :
    (uploadFinal .rejected 3).timerRunning = true ∧
    (∀ n, (uploadFinal .rejected n).timerRunning = true) ∧
    (∀ n, (uploadFinal .resolvedOk n).timerRunning = false ∧
      (uploadFinal .resolvedErr n).timerRunning = false) :=
  ⟨rfl, fun _ => rfl, fun _ => ⟨rfl, rfl⟩⟩

end RemoteReady
